import Mathlib

/-!
Verification of the pipeline-orchestrator / findings-aggregation core of the
`churn-plus` repository (Go), against its natural-language specification.

The Go sources embedded here are:
  * `internal/engine/prompts.go` — prompt builder, response parser, findings
    aggregator, report generation;
  * the orchestrator file (`PipelineOrchestrator`, `Execute`, `executePass`,
    `runPassAnalysis`) and the engine type declarations (`Severity`, `Finding`,
    `Pass`, `Pipeline`, `PipelineEvent`, `FileInfo`, reports);
  * the provider declarations (`RequestOptions`, `DefaultRequestOptions`).

Modelling conventions:
  * Go strings are Lean `String`s; all character-level work (indexing, case
    mapping, comparison) happens on `String.data : List Char`.  Go indexes
    strings by UTF-8 byte; every concrete input considered here is ASCII, where
    byte indices and character indices coincide, and bytewise lexicographic
    order on UTF-8 equals codepoint-lexicographic order.
  * Go `int`/`int64` are `Int`; `time.Time` is an `Int` nanosecond count when
    absolute arithmetic matters (report generation) and a `Nat` tick from a
    monotone counter where only "was recorded" matters (pass start/end stamps,
    with `0` standing for Go's zero `time.Time`).
  * `float64` quantities (`Duration.Seconds()`, temperature) are `ℚ`; the
    rounding of IEEE doubles is not modelled.
  * The `ModelProvider.Request` method and `os.ReadFile` are opaque external
    effects; they are modelled as pure oracle functions passed as parameters,
    returning `Except String String` (Go's `(value, error)` pair).
  * Fallible Go functions return `Except`; the event channel is an accumulated
    `List PipelineEvent` (the channel is bounded and closed by `Execute` in Go;
    blocking/closing is not modelled, only the emitted sequence).
-/

namespace Churn

/-- Go `type Severity string` with its four constants (`SeverityLow`, `SeverityMedium`,
`SeverityHigh`, `SeverityCritical`).  The repository only ever constructs these
four values (the parser maps everything else to `medium`), so the open Go string
type is modelled as a closed enum. -/
inductive Severity where
  | low
  | medium
  | high
  | critical
deriving DecidableEq, Repr

/-- The `Finding` struct. -/
structure Finding where
  file : String
  lineStart : Int
  lineEnd : Int
  severity : Severity
  kind : String
  message : String
  pass : String := ""
  code : String := ""
deriving DecidableEq, Repr

/-- Go `type PassStatus string` with its four constants. -/
inductive PassStatus where
  | pending
  | running
  | completed
  | failed
deriving DecidableEq, Repr

/-- The `Pass` struct.  `startTime`/`endTime` are ticks of the run's monotone
clock, `0` = Go's zero `time.Time` (never stamped). -/
structure Pass where
  name : String
  description : String := ""
  status : PassStatus := .pending
  model : String := ""
  provider : String := ""
  startTime : Nat := 0
  endTime : Nat := 0
  error : String := ""
deriving DecidableEq, Repr

/-- The `ProjectContext` struct. -/
structure ProjectContext where
  rootPath : String := ""
  languages : List String := []
  frameworks : List String := []
  tools : List String := []
  dependencies : List (String × String) := []
  fileCount : Int := 0
deriving DecidableEq, Repr

/-- The `FileInfo` struct. -/
structure FileInfo where
  path : String
  language : String := ""
  size : Int := 0
  lines : Int := 0
deriving DecidableEq, Repr

/-- Go `type PipelineEventType string` with its five constants. -/
inductive PipelineEventType where
  | passStarted
  | passProgress
  | passCompleted
  | passFailed
  | findingAdded
deriving DecidableEq, Repr

/-- The `PipelineEvent` struct; Go's nilable pointer/`error` fields become
`Option`s, its zero-value `Message` the empty string.  Events carry the value of
the `Pass`/`Finding` at emission time (Go sends pointers). -/
structure PipelineEvent where
  type : PipelineEventType
  pass : Option Pass := none
  finding : Option Finding := none
  message : String := ""
  error : Option String := none
deriving DecidableEq, Repr

/-! ## Findings aggregator (`prompts.go` 242–378) -/

/-- The `FindingsAggregator` struct: kept findings in insertion order plus the
set of fingerprints already seen (`map[string]bool`, modelled as the list of
keys inserted so far — only membership is ever consulted). -/
structure FindingsAggregator where
  findings : List Finding := []
  seen : List String := []
deriving DecidableEq, Repr

/-- Go `NewFindingsAggregator` (prompts.go 249–254). -/
def NewFindingsAggregator : FindingsAggregator := {}

/-- The fingerprint data string of `hashFinding` (prompts.go 372–378):
`fmt.Sprintf("%s:%d:%d:%s:%s", f.File, f.LineStart, f.LineEnd, f.Kind, f.Message)`.
The source then takes the hex-encoded sha256 of this string as the map key;
since sha256 is a function, findings with equal data strings always receive
equal keys, so the fingerprint is modelled by the data string itself (the model
and the code can differ only at a sha256 collision between distinct data
strings). -/
def hashFinding (f : Finding) : String :=
  f.file ++ (":") ++ toString f.lineStart ++ (":") ++ toString f.lineEnd
    ++ (":") ++ f.kind ++ (":") ++ f.message

/-- Go `FindingsAggregator.Add` (prompts.go 257–268): drop the finding if its
fingerprint was already seen, otherwise record the fingerprint and append the
finding. -/
def FindingsAggregator.Add (fa : FindingsAggregator) (f : Finding) : FindingsAggregator :=
  let hash := hashFinding f
  if fa.seen.contains hash then fa
  else { findings := fa.findings ++ [f], seen := fa.seen ++ [hash] }

/-- Go `FindingsAggregator.AddMultiple` (prompts.go 271–275). -/
def FindingsAggregator.AddMultiple (fa : FindingsAggregator) (fs : List Finding) :
    FindingsAggregator :=
  fs.foldl FindingsAggregator.Add fa

/-- The `severityOrder` map inside `Sort` (prompts.go 319–324). -/
def severityOrder : Severity → Nat
  | .critical => 0
  | .high => 1
  | .medium => 2
  | .low => 3

/-- Go `<` on strings: bytewise lexicographic comparison, which on UTF-8 equals
codepoint-lexicographic comparison of the character lists. -/
def strLt : List Char → List Char → Bool
  | [], [] => false
  | [], _ :: _ => true
  | _ :: _, [] => false
  | a :: as, b :: bs => if a < b then true else if b < a then false else strLt as bs

/-- The `less` closure passed to `sort.Slice` in `Sort` (prompts.go 317–337):
severity rank first, then file, then start line. -/
def findingLess (i j : Finding) : Bool :=
  if severityOrder i.severity != severityOrder j.severity then
    decide (severityOrder i.severity < severityOrder j.severity)
  else if i.file != j.file then strLt i.file.data j.file.data
  else decide (i.lineStart < j.lineStart)

/-- The total preorder induced by `findingLess`: `i` need not come after `j`. -/
def findingLE (i j : Finding) : Bool := !(findingLess j i)

/-- Go `FindingsAggregator.Sort` (prompts.go 316–338): reorder the kept findings
by the `findingLess` comparator.  Go's `sort.Slice` is modelled as a merge sort
with respect to the comparator: the result is sorted for `findingLess` and is a
permutation of the input, exactly as `sort.Slice` guarantees. -/
def FindingsAggregator.Sort (fa : FindingsAggregator) : FindingsAggregator :=
  { fa with findings := fa.findings.mergeSort findingLE }

/-- Go `FindingsAggregator.Count` (prompts.go 341–343). -/
def FindingsAggregator.Count (fa : FindingsAggregator) : Nat :=
  fa.findings.length

/-- Go `counts[k]++` on a Go map modelled as an association list: bump the entry
if the key is present, otherwise insert it with value 1. -/
def bumpKey {α : Type} [DecidableEq α] : List (α × Nat) → α → List (α × Nat)
  | [], k => [(k, 1)]
  | (k', v) :: rest, k =>
      if k' = k then (k', v + 1) :: rest else (k', v) :: bumpKey rest k

/-- Go `FindingsAggregator.CountBySeverity` (prompts.go 346–359): the counts map is
pre-initialised with all four severities at 0, then each finding bumps its
severity's entry. -/
def FindingsAggregator.CountBySeverity (fa : FindingsAggregator) : List (Severity × Nat) :=
  fa.findings.foldl (fun counts f => bumpKey counts f.severity)
    [(Severity.low, 0), (Severity.medium, 0), (Severity.high, 0), (Severity.critical, 0)]

/-- Go `FindingsAggregator.CountByKind` (prompts.go 362–370): same, starting from
an empty map. -/
def FindingsAggregator.CountByKind (fa : FindingsAggregator) : List (String × Nat) :=
  fa.findings.foldl (fun counts f => bumpKey counts f.kind) []

/-- The `ReportSummary` struct. `duration` carries `DurationSeconds` as an exact
rational (float64 rounding not modelled). -/
structure ReportSummary where
  filesAnalyzed : Int
  findingCount : Nat
  bySeverity : List (Severity × Nat)
  byKind : List (String × Nat)
  duration : ℚ
deriving DecidableEq, Repr

/-- The `AnalysisReport` struct (`timestamp` is the `time.Now()` at generation,
as a nanosecond count). -/
structure AnalysisReport where
  version : String
  timestamp : Int
  context : ProjectContext
  findings : List Finding
  summary : ReportSummary
  pipeline : List Pass
deriving DecidableEq, Repr

/-- Go `GenerateReport` (prompts.go 381–410).  `startTime`/`endTime`/`now` are
nanosecond counts; `endTime.Sub(startTime).Seconds()` is the exact rational
`(endTime - startTime) / 1e9` (the source does not clamp it at zero). -/
def GenerateReport (ctx : ProjectContext) (findings : List Finding)
    (passes : List Pass) (startTime endTime : Int) (now : Int) : AnalysisReport :=
  let aggregator := (NewFindingsAggregator.AddMultiple findings).Sort
  let duration : ℚ := ((endTime - startTime : Int) : ℚ) / 1000000000
  let summary : ReportSummary :=
    { filesAnalyzed := ctx.fileCount
      findingCount := aggregator.Count
      bySeverity := aggregator.CountBySeverity
      byKind := aggregator.CountByKind
      duration := duration }
  { version := "0.1.0"
    timestamp := now
    context := ctx
    findings := aggregator.findings
    summary := summary
    pipeline := passes }

/-! ## Go string primitives used by the response parser -/

/-- Go `unicode.IsSpace` restricted to Latin-1 (`strings.TrimSpace` trims these;
every input considered here is ASCII). -/
def goIsSpace (c : Char) : Bool :=
  c == ' ' || c == '\t' || c == '\n' || c == Char.ofNat 11 || c == Char.ofNat 12 ||
    c == '\r' || c == Char.ofNat 133 || c == Char.ofNat 160

/-- Go `strings.TrimSpace`. -/
def trimSpace (l : List Char) : List Char :=
  ((l.dropWhile goIsSpace).reverse.dropWhile goIsSpace).reverse

/-- Helper for `strings.Index`: first position at or after `i` where `needle`
occurs. -/
def strIndexAux (needle : List Char) : List Char → Nat → Int
  | [], i => if needle.isEmpty then (i : Int) else -1
  | c :: t, i => if needle.isPrefixOf (c :: t) then (i : Int) else strIndexAux needle t (i + 1)

/-- Go `strings.Index`: index of the first occurrence of `needle`, `-1` if absent. -/
def strIndex (hay needle : List Char) : Int := strIndexAux needle hay 0

/-- Go `strings.Contains`. -/
def strContains (hay needle : List Char) : Bool := strIndex hay needle ≥ 0

/-- Go `strings.LastIndex`: index of the last occurrence of `needle`, `-1` if
absent. -/
def strLastIndex (hay needle : List Char) : Int :=
  match ((List.range (hay.length + 1)).filter (fun i => needle.isPrefixOf (hay.drop i))).getLast? with
  | none => -1
  | some i => (i : Int)

/-- Go `extractJSON` (prompts.go 206–229): first try the span of a ```json fenced
block (falling through if the fence never closes), then the span from the first
`[` to the last `]`, else the empty string. -/
def extractJSON (text : List Char) : List Char :=
  let fenced :=
    if strContains text ("```json").data then
      let start := (strIndex text ("```json").data).toNat + 7
      let rest := text.drop start
      let e := strIndex rest ("```").data
      if e ≥ 0 then some (trimSpace (rest.take e.toNat)) else none
    else none
  match fenced with
  | some r => r
  | none =>
    if strContains text ['['] then
      let s := strIndex text ['[']
      let e := strLastIndex text [']']
      if s ≥ 0 && e ≥ 0 && e > s then
        trimSpace ((text.drop s.toNat).take (e.toNat + 1 - s.toNat))
      else []
    else []

/-! ## `encoding/json` as used by `ParseFindingsFromResponse`

`json.Unmarshal` is modelled by a JSON reader producing a syntax tree plus a
decoder into the anonymous `rawFindings` struct slice.  Number tokens keep
their literal text, because Go decodes a number into an `int` field by running
`strconv.ParseInt` on the literal (so `1.0` and `1e2` are errors there).
Where Go's `Unmarshal` records a type error but keeps scanning, the model stops
at the first error; `ParseFindingsFromResponse` only checks `err != nil`, so
the two are indistinguishable to it. -/

/-- A JSON syntax tree.  `num` stores the literal characters of the number
token; `str` stores the unescaped contents. -/
inductive Json where
  | null
  | bool (b : Bool)
  | num (lit : List Char)
  | str (s : List Char)
  | arr (items : List Json)
  | obj (fields : List (List Char × Json))

/-- JSON insignificant whitespace (space, tab, newline, carriage return). -/
def jsonWs (c : Char) : Bool :=
  c == ' ' || c == '\t' || c == '\n' || c == '\r'

/-- Skip insignificant whitespace. -/
def skipWs (l : List Char) : List Char := l.dropWhile jsonWs

/-- Hex digit value. -/
def hexVal (c : Char) : Option Nat :=
  if '0' ≤ c ∧ c ≤ '9' then some (c.toNat - 48)
  else if 'a' ≤ c ∧ c ≤ 'f' then some (c.toNat - 87)
  else if 'A' ≤ c ∧ c ≤ 'F' then some (c.toNat - 55)
  else none

/-- Body of a JSON string, after the opening quote: returns the unescaped
contents and the rest of the input after the closing quote.  Unescaped control
characters are rejected, as in Go.  (`\uXXXX` becomes the codepoint directly;
Go's surrogate-pair recombination is not modelled — no input here uses it.) -/
def parseStringBody : List Char → Option (List Char × List Char)
  | [] => none
  | '"' :: rest => some ([], rest)
  | '\\' :: esc =>
    match esc with
    | '"' :: rest => (parseStringBody rest).map (fun r => ('"' :: r.1, r.2))
    | '\\' :: rest => (parseStringBody rest).map (fun r => ('\\' :: r.1, r.2))
    | '/' :: rest => (parseStringBody rest).map (fun r => ('/' :: r.1, r.2))
    | 'b' :: rest => (parseStringBody rest).map (fun r => (Char.ofNat 8 :: r.1, r.2))
    | 'f' :: rest => (parseStringBody rest).map (fun r => (Char.ofNat 12 :: r.1, r.2))
    | 'n' :: rest => (parseStringBody rest).map (fun r => ('\n' :: r.1, r.2))
    | 'r' :: rest => (parseStringBody rest).map (fun r => ('\r' :: r.1, r.2))
    | 't' :: rest => (parseStringBody rest).map (fun r => ('\t' :: r.1, r.2))
    | 'u' :: h1 :: h2 :: h3 :: h4 :: rest =>
      match hexVal h1, hexVal h2, hexVal h3, hexVal h4 with
      | some a, some b, some c, some d =>
        (parseStringBody rest).map (fun r =>
          (Char.ofNat (((a * 16 + b) * 16 + c) * 16 + d) :: r.1, r.2))
      | _, _, _, _ => none
    | _ => none
  | c :: rest =>
    if c.toNat < 32 then none
    else (parseStringBody rest).map (fun r => (c :: r.1, r.2))

/-- One or more decimal digits: returns them and the rest. -/
def takeDigits1 (l : List Char) : Option (List Char × List Char) :=
  let ds := l.takeWhile Char.isDigit
  if ds.isEmpty then none else some (ds, l.drop ds.length)

/-- A JSON number token (RFC 8259 grammar): returns its literal characters and
the rest of the input. -/
def parseNumberLit (l : List Char) : Option (List Char × List Char) :=
  let (sign, afterSign) :=
    match l with
    | '-' :: t => ((['-'] : List Char), t)
    | _ => (([] : List Char), l)
  match afterSign with
  | '0' :: t =>
    -- leading zero: integer part is exactly "0"
    (parseNumberTail t).map (fun r => (sign ++ ['0'] ++ r.1, r.2))
  | _ =>
    match takeDigits1 afterSign with
    | none => none
    | some (ds, t) =>
      if ds.headD '0' = '0' then none
      else (parseNumberTail t).map (fun r => (sign ++ ds ++ r.1, r.2))
where
  /-- Optional fraction and exponent parts. -/
  parseNumberTail (l : List Char) : Option (List Char × List Char) :=
    let (frac, afterFrac) :=
      match l with
      | '.' :: t =>
        match takeDigits1 t with
        | some (ds, t') => (some ('.' :: ds), t')
        | none => (none, l)
      | _ => (some ([] : List Char), l)
    match frac with
    | none => none
    | some fracChars =>
      match afterFrac with
      | 'e' :: t => (parseExp t).map (fun r => (fracChars ++ ['e'] ++ r.1, r.2))
      | 'E' :: t => (parseExp t).map (fun r => (fracChars ++ ['E'] ++ r.1, r.2))
      | _ => some (fracChars, afterFrac)
  /-- Exponent digits with optional sign. -/
  parseExp (l : List Char) : Option (List Char × List Char) :=
    match l with
    | '+' :: t => (takeDigits1 t).map (fun r => ('+' :: r.1, r.2))
    | '-' :: t => (takeDigits1 t).map (fun r => ('-' :: r.1, r.2))
    | t => takeDigits1 t

mutual

/-- A JSON value, fuelled (fuel strictly decreases on every recursive call; the
top-level entry point supplies ample fuel). -/
def parseValue : Nat → List Char → Option (Json × List Char)
  | 0, _ => none
  | fuel + 1, input =>
    match skipWs input with
    | 'n' :: 'u' :: 'l' :: 'l' :: rest => some (.null, rest)
    | 't' :: 'r' :: 'u' :: 'e' :: rest => some (.bool true, rest)
    | 'f' :: 'a' :: 'l' :: 's' :: 'e' :: rest => some (.bool false, rest)
    | '"' :: rest => (parseStringBody rest).map (fun r => (.str r.1, r.2))
    | '[' :: rest => (parseArrayItems fuel rest).map (fun r => (.arr r.1, r.2))
    | '{' :: rest => (parseObjFields fuel rest).map (fun r => (.obj r.1, r.2))
    | s =>
      match parseNumberLit s with
      | some (lit, rest) => some (.num lit, rest)
      | none => none

/-- Array elements after `[`. -/
def parseArrayItems : Nat → List Char → Option (List Json × List Char)
  | 0, _ => none
  | fuel + 1, input =>
    match skipWs input with
    | ']' :: rest => some ([], rest)
    | s =>
      match parseValue fuel s with
      | none => none
      | some (v, rest) =>
        (parseArrayTail fuel rest).map (fun r => (v :: r.1, r.2))

/-- After an array element: `,` and another element, or `]`. -/
def parseArrayTail : Nat → List Char → Option (List Json × List Char)
  | 0, _ => none
  | fuel + 1, input =>
    match skipWs input with
    | ']' :: rest => some ([], rest)
    | ',' :: rest =>
      match parseValue fuel rest with
      | none => none
      | some (v, rest') =>
        (parseArrayTail fuel rest').map (fun r => (v :: r.1, r.2))
    | _ => none

/-- Object members after `{`. -/
def parseObjFields : Nat → List Char → Option (List (List Char × Json) × List Char)
  | 0, _ => none
  | fuel + 1, input =>
    match skipWs input with
    | '}' :: rest => some ([], rest)
    | '"' :: rest =>
      match parseStringBody rest with
      | none => none
      | some (key, rest') =>
        match skipWs rest' with
        | ':' :: rest'' =>
          match parseValue fuel rest'' with
          | none => none
          | some (v, rest3) =>
            (parseObjTail fuel rest3).map (fun r => ((key, v) :: r.1, r.2))
        | _ => none
    | _ => none

/-- After an object member: `,` and another member, or `}`. -/
def parseObjTail : Nat → List Char → Option (List (List Char × Json) × List Char)
  | 0, _ => none
  | fuel + 1, input =>
    match skipWs input with
    | '}' :: rest => some ([], rest)
    | ',' :: rest =>
      match skipWs rest with
      | '"' :: rest' =>
        match parseStringBody rest' with
        | none => none
        | some (key, rest'') =>
          match skipWs rest'' with
          | ':' :: rest3 =>
            match parseValue fuel rest3 with
            | none => none
            | some (v, rest4) =>
              (parseObjTail fuel rest4).map (fun r => ((key, v) :: r.1, r.2))
          | _ => none
      | _ => none
    | _ => none

end

/-- Read a complete JSON document: exactly one value, with only whitespace
around it (Go's `Unmarshal` rejects trailing data). -/
def parseJsonDoc (s : List Char) : Option Json :=
  match parseValue (2 * s.length + 8) s with
  | none => none
  | some (v, rest) => if (skipWs rest).isEmpty then some v else none

/-- The anonymous struct decoded per element in `ParseFindingsFromResponse`
(prompts.go 163–170); fields start at their Go zero values. -/
structure RawFinding where
  lineStart : Int := 0
  lineEnd : Int := 0
  severity : String := ""
  kind : String := ""
  message : String := ""
  code : String := ""
deriving DecidableEq, Repr

/-- ASCII lowercase mapping (`strings.ToLower`; the non-ASCII case foldings of
Go's Unicode tables are not modelled — every string compared here is ASCII). -/
def toLowerChars (l : List Char) : List Char := l.map Char.toLower

/-- Go `strconv.ParseInt` on a JSON number literal, as Go's decoder runs it for an
`int` destination field: optional sign followed by decimal digits only (so
fraction or exponent characters make it fail). -/
def parseIntLit (l : List Char) : Option Int :=
  match l with
  | '-' :: ds => (digitsVal ds).map (fun n => -(n : Int))
  | '+' :: ds => (digitsVal ds).map (fun n => (n : Int))
  | ds => (digitsVal ds).map (fun n => (n : Int))
where
  /-- Value of a nonempty all-digit string. -/
  digitsVal (ds : List Char) : Option Nat :=
    if ds.isEmpty ∨ ¬ ds.all Char.isDigit then none
    else some (ds.foldl (fun acc c => acc * 10 + (c.toNat - 48)) 0)

/-- Store one JSON object member into the `rawFindings` element struct, using
Go's case-insensitive field-name matching against the `json:"..."` tags; JSON
`null` leaves a field untouched, a wrong value type is a decode error, unknown
keys are ignored. -/
def storeRawField (rf : RawFinding) (key : List Char) (v : Json) :
    Except Unit RawFinding :=
  let k := toLowerChars key
  if k = ("line_start").data then
    match v with
    | .null => .ok rf
    | .num lit => match parseIntLit lit with
      | some n => .ok { rf with lineStart := n }
      | none => .error ()
    | _ => .error ()
  else if k = ("line_end").data then
    match v with
    | .null => .ok rf
    | .num lit => match parseIntLit lit with
      | some n => .ok { rf with lineEnd := n }
      | none => .error ()
    | _ => .error ()
  else if k = ("severity").data then
    match v with
    | .null => .ok rf
    | .str s => .ok { rf with severity := String.mk s }
    | _ => .error ()
  else if k = ("kind").data then
    match v with
    | .null => .ok rf
    | .str s => .ok { rf with kind := String.mk s }
    | _ => .error ()
  else if k = ("message").data then
    match v with
    | .null => .ok rf
    | .str s => .ok { rf with message := String.mk s }
    | _ => .error ()
  else if k = ("code").data then
    match v with
    | .null => .ok rf
    | .str s => .ok { rf with code := String.mk s }
    | _ => .error ()
  else .ok rf

/-- Decode one array element into the element struct: it must be an object (or
JSON `null`, which Go leaves as the zero struct); members are applied in
document order, later duplicates overwriting earlier ones, as `Unmarshal`
does. -/
def decodeRawFinding (j : Json) : Except Unit RawFinding :=
  match j with
  | .null => .ok {}
  | .obj fields => fields.foldlM (fun rf kv => storeRawField rf kv.1 kv.2) {}
  | _ => .error ()

/-- Go `json.Unmarshal([]byte(jsonStr), &rawFindings)` for the slice-of-structs
destination: the document must be a single JSON value; `null` leaves the slice
empty, an array decodes elementwise, any other value is a type error. -/
def unmarshalRawFindings (s : List Char) : Except Unit (List RawFinding) :=
  match parseJsonDoc s with
  | none => .error ()
  | some .null => .ok []
  | some (.arr items) => items.mapM decodeRawFinding
  | some _ => .error ()

/-- Decidable equality for `Except` results (needed to evaluate concrete
decoder and provider runs inside proofs). -/
instance {α β : Type} [DecidableEq α] [DecidableEq β] : DecidableEq (Except α β) :=
  fun a b =>
    match a, b with
    | .ok x, .ok y =>
      if h : x = y then .isTrue (h ▸ rfl) else .isFalse (fun hh => h (Except.ok.inj hh))
    | .error x, .error y =>
      if h : x = y then .isTrue (h ▸ rfl) else .isFalse (fun hh => h (Except.error.inj hh))
    | .ok _, .error _ => .isFalse (fun hh => Except.noConfusion hh)
    | .error _, .ok _ => .isFalse (fun hh => Except.noConfusion hh)

/-- The `switch strings.ToLower(rf.Severity)` block of
`ParseFindingsFromResponse` (prompts.go 179–189): unrecognized severities keep
the default `SeverityMedium`. -/
def severityFromName (s : String) : Severity :=
  if toLowerChars s.data = ("low").data then .low
  else if toLowerChars s.data = ("medium").data then .medium
  else if toLowerChars s.data = ("high").data then .high
  else if toLowerChars s.data = ("critical").data then .critical
  else .medium

/-- Go `ParseFindingsFromResponse` (prompts.go 153–203): extract a JSON array
substring, unmarshal it, and convert each element; any failure yields the empty
list, never an error.  `File` is the input path, `Pass` is left empty (stamped
later by the orchestrator). -/
def ParseFindingsFromResponse (filePath response : String) : List Finding :=
  let jsonStr := extractJSON response.data
  if jsonStr.isEmpty then []
  else
    match unmarshalRawFindings jsonStr with
    | .error _ => []
    | .ok raws => raws.map (fun rf =>
        { file := filePath
          lineStart := rf.lineStart
          lineEnd := rf.lineEnd
          severity := severityFromName rf.severity
          kind := rf.kind
          message := rf.message
          code := rf.code })

/-! ## Prompt builder (`prompts.go` 10–150) and provider options -/

/-- Go `GetAnalysisInstructions` (prompts.go 86–150): pass-specific guidance
followed by language-specific guidance (both empty for unknown keys, after the
fixed headers). -/
def GetAnalysisInstructions (passName language : String) : String :=
  let passPart :=
    if passName = "lint" then
      "Focus on:\n- Unused imports, variables, and functions\n- Unreachable code\n- Basic syntax and structural issues\n- Type errors (if applicable)\n"
    else if passName = "refactor" then
      "Focus on:\n- Code duplication\n- Complex functions that should be split\n- Opportunities for abstraction\n- Design pattern improvements\n- Performance optimizations\n"
    else if passName = "local-refinement" then
      "Focus on:\n- Validating previous findings\n- Ensuring recommendations are practical\n- Identifying false positives\n"
    else if passName = "summary" then
      "Focus on:\n- Overall code quality assessment\n- Consistency across findings\n- Priority ordering of issues\n"
    else ""
  let langPart :=
    if language = "typescript" ∨ language = "javascript" then
      "- React hooks must be called in the same order every render\n- Async/await patterns and promise handling\n- Type safety (TypeScript)\n- Modern ES6+ patterns\n"
    else if language = "python" then
      "- Type hints and PEP 8 compliance\n- Pythonic idioms (list comprehensions, generators)\n- Async/await patterns\n- Exception handling\n"
    else if language = "go" then
      "- Error handling (check all errors)\n- Goroutine and channel patterns\n- Go idioms and conventions\n- Use of standard library\n"
    else if language = "rust" then
      "- Ownership and borrowing\n- Error handling (Result/Option)\n- Memory safety\n- Lifetime annotations\n"
    else ""
  "Pass: " ++ passName ++ "\n\n" ++ passPart
    ++ "\nLanguage-specific considerations for " ++ language ++ ":\n" ++ langPart

/-- Go `GetSystemPromptForPass` (prompts.go 70–83). -/
def GetSystemPromptForPass (p : Pass) : String :=
  if p.name = "lint" then
    "You are an expert code analyzer focused on identifying structural issues, unused code, and basic quality problems. Be precise and actionable."
  else if p.name = "refactor" then
    "You are an expert software architect analyzing code for structural improvements, design patterns, and refactoring opportunities. Focus on maintainability and best practices."
  else if p.name = "local-refinement" then
    "You are a code reviewer refining previous analysis results. Focus on validating findings and ensuring recommendations are practical."
  else if p.name = "summary" then
    "You are synthesizing analysis results to ensure consistency and provide an overall assessment. Identify any conflicting recommendations."
  else
    "You are an expert code analyzer. Identify issues and suggest improvements."

/-- The file-system oracle standing for `os.ReadFile`: path to content or
error text. -/
def FileSystem : Type := String → Except String String

/-- Go `BuildPromptForFile` (prompts.go 11–67): read the file (an error there is
returned to the caller), then assemble context info, instructions, the fenced
file content and the JSON-format instruction into one prompt string. -/
def BuildPromptForFile (fs : FileSystem) (file : FileInfo) (ctx : ProjectContext)
    (p : Pass) : Except String String :=
  match fs file.path with
  | .error e => .error ("failed to read file: " ++ e)
  | .ok content =>
    let contextInfo :=
      "Project Context:\n- Root: " ++ ctx.rootPath
        ++ "\n- Languages: " ++ String.intercalate (", ") ctx.languages
        ++ "\n- Frameworks: " ++ String.intercalate (", ") ctx.frameworks
        ++ "\n- File: " ++ file.path ++ " (Language: " ++ file.language
        ++ ", " ++ toString file.lines ++ " lines)\n"
    let instructions := GetAnalysisInstructions p.name file.language
    .ok (contextInfo ++ "\n\n" ++ instructions
      ++ "\n\nFile Content:\n```" ++ file.language ++ "\n" ++ content
      ++ "\n```\n\nAnalyze this file and identify issues. Return your findings as a JSON array with this structure:\n[\n  \x7b\n    \"line_start\": <number>,\n    \"line_end\": <number>,\n    \"severity\": \"low|medium|high|critical\",\n    \"kind\": \"unused-import|unreachable-code|security|performance|etc\",\n    \"message\": \"Description of the issue\",\n    \"code\": \"Optional suggested fix\"\n  \x7d\n]\n\nIf no issues are found, return an empty array: []\n")

/-- The `RequestOptions` struct (providers package); `Temperature` is ℚ for the
float64. -/
structure RequestOptions where
  model : String := ""
  temperature : ℚ := 0
  maxTokens : Int := 0
  systemPrompt : String := ""
deriving DecidableEq, Repr

/-- Go `DefaultRequestOptions` (providers package). -/
def DefaultRequestOptions : RequestOptions :=
  { temperature := 7 / 10, maxTokens := 4000 }

/-- The `ModelProvider.Request` capability, as a pure oracle from (prompt,
options) to response text or error. -/
def Provider : Type := String → RequestOptions → Except String String

/-- The request options assembled per file in `runPassAnalysis` (orchestrator
lines 126–128): defaults with the pass's model and system prompt. -/
def requestOptionsFor (p : Pass) : RequestOptions :=
  { DefaultRequestOptions with model := p.model, systemPrompt := GetSystemPromptForPass p }

/-! ## Pipeline orchestrator

The orchestrator's mutable run state — `pipeline.Findings`, the event channel,
and the `time.Now()` source — is threaded explicitly.  The clock starts at 1
and increments at every `time.Now()` call, so a stamped time is never `0` (the
zero `time.Time`). -/

/-- The orchestrator's run state: accumulated `pipeline.Findings`, the events
sent so far, the current clock tick, and `pipeline.EndTime` (0 until set). -/
structure RunState where
  findings : List Finding := []
  events : List PipelineEvent := []
  clock : Nat := 1
  pipelineEndTime : Nat := 0
deriving DecidableEq, Repr

/-- One iteration of the per-file loop of `runPassAnalysis` (orchestrator lines
111–139): emit `PassProgress`, build the prompt (skip the file on error),
request the completion (skip the file on error), then parse the response and
append its findings. -/
def runPassStep (provider : Provider) (fs : FileSystem) (ctx : ProjectContext)
    (p : Pass) (acc : List PipelineEvent × List Finding) (file : FileInfo) :
    List PipelineEvent × List Finding :=
  let evs := acc.1 ++ [{ type := .passProgress, pass := some p,
                         message := "Analyzing " ++ file.path }]
  match BuildPromptForFile fs file ctx p with
  | .error _ => (evs, acc.2)
  | .ok prompt =>
    match provider prompt (requestOptionsFor p) with
    | .error _ => (evs, acc.2)
    | .ok response => (evs, acc.2 ++ ParseFindingsFromResponse file.path response)

/-- Go `runPassAnalysis` (orchestrator lines 107–142): fold the per-file step over
the file list and return the collected findings with a `nil` error (the
function's only `return` is `return findings, nil`; both failure cases inside
the loop `continue`). -/
def runPassAnalysis (provider : Provider) (fs : FileSystem) (ctx : ProjectContext)
    (p : Pass) (files : List FileInfo) :
    List PipelineEvent × Except String (List Finding) :=
  let r := files.foldl (runPassStep provider fs ctx p) ([], [])
  (r.1, .ok r.2)

/-- The events of a `runPassAnalysis` run. -/
def runPassEvents (provider : Provider) (fs : FileSystem) (ctx : ProjectContext)
    (p : Pass) (files : List FileInfo) : List PipelineEvent :=
  (files.foldl (runPassStep provider fs ctx p) ([], [])).1

/-- The findings of a `runPassAnalysis` run. -/
def runPassFindings (provider : Provider) (fs : FileSystem) (ctx : ProjectContext)
    (p : Pass) (files : List FileInfo) : List Finding :=
  (files.foldl (runPassStep provider fs ctx p) ([], [])).2

/-- Go `executePass` (orchestrator lines 69–104), with the `runPassAnalysis` call
abstracted as `analyze` (instantiated by `executePass` below): mark the pass
running and stamp its start time, emit `PassStarted`, run the analysis, and on
success stamp each finding with the pass name, append it to
`pipeline.Findings`, emit one `FindingAdded` per finding in order (Go
interleaves each append with its event; the resulting sequences are the same),
then mark the pass completed, stamp its end time, and emit `PassCompleted`.
An analysis error is returned to `Execute` with the pass still `running`
(`Execute` does the failure bookkeeping). -/
def executePassWith (analyze : Pass → List PipelineEvent × Except String (List Finding))
    (st : RunState) (p : Pass) : Pass × RunState × Option String :=
  let p1 : Pass := { p with status := .running, startTime := st.clock }
  let st1 : RunState :=
    { st with clock := st.clock + 1,
              events := st.events ++ [{ type := .passStarted, pass := some p1 }] }
  match analyze p1 with
  | (aevs, .error e) => (p1, { st1 with events := st1.events ++ aevs }, some e)
  | (aevs, .ok fnds) =>
    let stamped := fnds.map (fun f => { f with pass := p1.name })
    let st2 : RunState :=
      { st1 with
          events := st1.events ++ aevs
            ++ stamped.map (fun f => { type := .findingAdded, finding := some f }),
          findings := st1.findings ++ stamped }
    let p2 : Pass := { p1 with status := .completed, endTime := st2.clock }
    let st3 : RunState :=
      { st2 with clock := st2.clock + 1,
                 events := st2.events ++ [{ type := .passCompleted, pass := some p2 }] }
    (p2, st3, none)

/-- Go `executePass` with the concrete `runPassAnalysis`. -/
def executePass (provider : Provider) (fs : FileSystem) (ctx : ProjectContext)
    (files : List FileInfo) (st : RunState) (p : Pass) : Pass × RunState × Option String :=
  executePassWith (fun p' => runPassAnalysis provider fs ctx p' files) st p

/-- Go `Execute` (orchestrator lines 44–66), over the abstract per-pass analysis:
run the passes in order; on the first `executePass` error mark that pass
`failed` with the error string and end time, emit `PassFailed`, and return
`pass <name> failed: <err>` — later passes are left untouched.  If every pass
succeeds, stamp `pipeline.EndTime` and return `nil`.  The result is the
updated pass list (updated in place in Go), the final run state, and
`Execute`'s return value. -/
def ExecuteWith (analyze : Pass → List PipelineEvent × Except String (List Finding)) :
    RunState → List Pass → List Pass × RunState × Except String Unit
  | st, [] => ([], { st with pipelineEndTime := st.clock, clock := st.clock + 1 }, .ok ())
  | st, p :: rest =>
    match executePassWith analyze st p with
    | (p', st', none) =>
      let r := ExecuteWith analyze st' rest
      (p' :: r.1, r.2.1, r.2.2)
    | (p', st', some e) =>
      let pf : Pass := { p' with status := .failed, error := e, endTime := st'.clock }
      let st2 : RunState :=
        { st' with clock := st'.clock + 1,
                   events := st'.events
                     ++ [{ type := .passFailed, pass := some pf, error := some e }] }
      (pf :: rest, st2, .error ("pass " ++ p.name ++ " failed: " ++ e))

/-- Go `Execute` with the concrete `runPassAnalysis`. -/
def Execute (provider : Provider) (fs : FileSystem) (ctx : ProjectContext)
    (st : RunState) (passes : List Pass) (files : List FileInfo) :
    List Pass × RunState × Except String Unit :=
  ExecuteWith (fun p => runPassAnalysis provider fs ctx p files) st passes

/-! ## Concrete inputs used by counterexamples and witnesses -/

/-- A response whose JSON array holds the same finding object twice. -/
def dupResp : String :=
  "[\x7b\"line_start\":1,\"line_end\":1,\"severity\":\"low\",\"kind\":\"k\",\"message\":\"m\"\x7d,\x7b\"line_start\":1,\"line_end\":1,\"severity\":\"low\",\"kind\":\"k\",\"message\":\"m\"\x7d]"

/-- A provider that always answers with `dupResp`. -/
def dupProvider : Provider := fun _ _ => .ok dupResp

/-- A file system holding trivial content at every path. -/
def okFs : FileSystem := fun _ => .ok "package main"

/-- A small project context. -/
def smallCtx : ProjectContext := { rootPath := "/p", languages := ["go"], fileCount := 1 }

/-- One Go file. -/
def fileA : FileInfo := { path := "a.go", language := "go", lines := 1 }

/-- One pending lint pass. -/
def lintPass : Pass := { name := "lint", model := "m", provider := "anthropic" }

/-- The finding encoded (twice) by `dupResp`, as stamped by the lint pass. -/
def dupFinding : Finding :=
  { file := "a.go", lineStart := 1, lineEnd := 1, severity := .low, kind := "k",
    message := "m", pass := "lint" }

/-- A fenced ```json response with one high-severity element amid prose. -/
def fencedResp : String :=
  "Here is the analysis:\n```json\n[\x7b\"line_start\":1,\"line_end\":2,\"severity\":\"high\",\"kind\":\"x\",\"message\":\"m\"\x7d]\n```\nHope this helps."

/-- The finding parsed from `fencedResp` for path `app.go`. -/
def fencedFinding : Finding :=
  { file := "app.go", lineStart := 1, lineEnd := 2, severity := .high, kind := "x",
    message := "m" }

/-- A bare JSON array whose element carries the unrecognized severity
`urgent`. -/
def urgentResp : String :=
  "[\x7b\"line_start\":3,\"line_end\":3,\"severity\":\"urgent\",\"kind\":\"k\",\"message\":\"mm\"\x7d]"

/-- The finding parsed from `urgentResp` for path `app.go`: severity falls back
to medium. -/
def urgentFinding : Finding :=
  { file := "app.go", lineStart := 3, lineEnd := 3, severity := .medium, kind := "k",
    message := "mm" }

/-- A response with one high finding, used for the per-file-resilience
witness. -/
def okResp : String :=
  "[\x7b\"line_start\":1,\"line_end\":1,\"severity\":\"high\",\"kind\":\"k\",\"message\":\"m\"\x7d]"

/-- A provider that is rate-limited exactly for prompts naming `b.go` (each
prompt embeds the file path) and answers `okResp` otherwise. -/
def flakyProvider : Provider := fun prompt _ =>
  if strContains prompt.data ("b.go").data then .error "rate limited" else .ok okResp

/-- Second file. -/
def fileB : FileInfo := { path := "b.go", language := "go", lines := 1 }

/-- Third file. -/
def fileC : FileInfo := { path := "c.go", language := "go", lines := 1 }

/-- An abstract per-pass analysis that is pass-fatal exactly for the pass named
`two`: used to witness the failure path of `ExecuteWith`. -/
def fatalOnTwo : Pass → List PipelineEvent × Except String (List Finding) :=
  fun p => ([], if p.name = "two" then .error "boom" else .ok [])

/-- First pending pass of the 3-pass witness pipeline. -/
def passOne : Pass := { name := "one" }

/-- Second (fatally failing) pass of the 3-pass witness pipeline. -/
def passTwo : Pass := { name := "two" }

/-- Third pending pass of the 3-pass witness pipeline. -/
def passThree : Pass := { name := "three" }

/-! ## Aggregator lemmas -/

lemma hashFinding_congr {x g : Finding} (h1 : x.file = g.file)
    (h2 : x.lineStart = g.lineStart) (h3 : x.lineEnd = g.lineEnd)
    (h4 : x.kind = g.kind) (h5 : x.message = g.message) :
    hashFinding x = hashFinding g := by
  simp [hashFinding, h1, h2, h3, h4, h5]

lemma add_of_seen {fa : FindingsAggregator} {f : Finding}
    (h : fa.seen.contains (hashFinding f) = true) : fa.Add f = fa := by
  show (if fa.seen.contains (hashFinding f) then fa
    else { findings := fa.findings ++ [f], seen := fa.seen ++ [hashFinding f] }) = fa
  rw [h]
  simp

lemma addMultiple_of_seen {l : List Finding} :
    ∀ {fa : FindingsAggregator}, (∀ x ∈ l, fa.seen.contains (hashFinding x) = true) →
      fa.AddMultiple l = fa := by
  induction l with
  | nil => intro fa _; rfl
  | cons x t ih =>
    intro fa h
    have hx : fa.Add x = fa := add_of_seen (h x (by simp))
    show (fa.Add x).AddMultiple t = fa
    rw [hx]
    exact ih (fun y hy => h y (by simp [hy]))

/-- Claim C4: for all findings added to the same `FindingsAggregator` with
identical `(file, lineStart, lineEnd, kind, message)`, only the first is
stored — adding the same logical finding any number of times (`g :: t`, so
N = t.length + 1 ≥ 1), in any insertion order of the duplicates, yields exactly
the one stored finding `g`. -/
theorem aggregator_dedup_idempotent (g : Finding) (t : List Finding)
    (h : ∀ x ∈ t, x.file = g.file ∧ x.lineStart = g.lineStart ∧
      x.lineEnd = g.lineEnd ∧ x.kind = g.kind ∧ x.message = g.message) :
    (NewFindingsAggregator.AddMultiple (g :: t)).findings = [g] := by
  have h1 : NewFindingsAggregator.Add g =
      { findings := [g], seen := [hashFinding g] } := by
    simp [FindingsAggregator.Add, NewFindingsAggregator]
  have h2 : (NewFindingsAggregator.Add g).AddMultiple t = NewFindingsAggregator.Add g := by
    apply addMultiple_of_seen
    intro x hx
    obtain ⟨e1, e2, e3, e4, e5⟩ := h x hx
    rw [h1, hashFinding_congr e1 e2 e3 e4 e5]
    simp
  show ((NewFindingsAggregator.Add g).AddMultiple t).findings = [g]
  rw [h2, h1]

/-- Witness for C4: the same logical finding added three times (N = 3) leaves
exactly one stored finding. -/
theorem aggregator_dedup_idempotent_witness :
    (NewFindingsAggregator.AddMultiple [dupFinding, dupFinding, dupFinding]).findings
      = [dupFinding] :=
  aggregator_dedup_idempotent dupFinding [dupFinding, dupFinding] (by decide)

/-! ## Order lemmas for `Sort` -/

lemma strLt_irrefl : ∀ l : List Char, strLt l l = false
  | [] => rfl
  | a :: as => by simp [strLt, strLt_irrefl as]

lemma strLt_asymm : ∀ {a b : List Char}, strLt a b = true → strLt b a = false
  | [], [], h => by simp [strLt] at h
  | [], _ :: _, _ => by simp [strLt]
  | _ :: _, [], h => by simp [strLt] at h
  | x :: xs, y :: ys, h => by
    simp only [strLt] at h ⊢
    rcases lt_trichotomy x y with hxy | hxy | hxy
    · simp [hxy, not_lt_of_gt hxy, ne_of_gt hxy]
    · subst hxy
      simp only [lt_irrefl, if_false] at h ⊢
      exact strLt_asymm h
    · simp [hxy, not_lt_of_gt hxy] at h

lemma strLt_trans : ∀ {a b c : List Char},
    strLt a b = true → strLt b c = true → strLt a c = true
  | [], _, [], _, h2 => by
    cases h2' : strLt _ ([] : List Char) <;> simp_all [strLt_asymm]
  | [], _ :: _, _ :: _, _, _ => by simp [strLt]
  | [], [], _ :: _, _, _ => by simp [strLt]
  | _ :: _, [], _, h1, _ => by simp [strLt] at h1
  | _ :: _, _ :: _, [], _, h2 => by simp [strLt] at h2
  | x :: xs, y :: ys, z :: zs, h1, h2 => by
    simp only [strLt] at h1 h2 ⊢
    rcases lt_trichotomy x y with hxy | hxy | hxy
    · rcases lt_trichotomy y z with hyz | hyz | hyz
      · simp [lt_trans hxy hyz]
      · subst hyz; simp [hxy]
      · simp [hyz, not_lt_of_gt hyz] at h2
    · subst hxy
      simp only [lt_irrefl, if_false] at h1
      rcases lt_trichotomy x z with hyz | hyz | hyz
      · simp [hyz]
      · subst hyz
        simp only [lt_irrefl, if_false] at h2 ⊢
        exact strLt_trans h1 h2
      · simp [hyz, not_lt_of_gt hyz] at h2
    · simp [hxy, not_lt_of_gt hxy] at h1

lemma strLt_conn : ∀ {a b : List Char},
    strLt a b = false → strLt b a = false → a = b
  | [], [], _, _ => rfl
  | [], _ :: _, h1, _ => by simp [strLt] at h1
  | _ :: _, [], _, h2 => by simp [strLt] at h2
  | x :: xs, y :: ys, h1, h2 => by
    simp only [strLt] at h1 h2
    rcases lt_trichotomy x y with hxy | hxy | hxy
    · simp [hxy] at h1
    · subst hxy
      simp only [lt_irrefl, if_false] at h1 h2
      rw [strLt_conn h1 h2]
    · simp [hxy] at h2

lemma strLt_trichotomy (a b : List Char) :
    strLt a b = true ∨ a = b ∨ strLt b a = true := by
  cases h1 : strLt a b
  · cases h2 : strLt b a
    · exact Or.inr (Or.inl (strLt_conn h1 h2))
    · exact Or.inr (Or.inr rfl)
  · exact Or.inl rfl

lemma findingLess_iff {i j : Finding} :
    findingLess i j = true ↔
      (severityOrder i.severity < severityOrder j.severity ∨
        (severityOrder i.severity = severityOrder j.severity ∧
          (strLt i.file.data j.file.data = true ∨
            (i.file = j.file ∧ i.lineStart < j.lineStart)))) := by
  unfold findingLess
  by_cases h1 : severityOrder i.severity = severityOrder j.severity
  · simp only [h1, bne_self_eq_false, if_false, lt_irrefl, false_or]
    by_cases h2 : i.file = j.file
    · simp [h2, bne_self_eq_false, strLt_irrefl]
    · have : (i.file != j.file) = true := by simp [bne_iff_ne, h2]
      simp [this, h2]
  · have hb : (severityOrder i.severity != severityOrder j.severity) = true := by
      simp [bne_iff_ne, h1]
    simp [hb, h1]

lemma findingLess_false_iff {i j : Finding} :
    findingLess i j = false ↔
      ¬ (severityOrder i.severity < severityOrder j.severity ∨
        (severityOrder i.severity = severityOrder j.severity ∧
          (strLt i.file.data j.file.data = true ∨
            (i.file = j.file ∧ i.lineStart < j.lineStart)))) := by
  rw [← findingLess_iff]
  cases findingLess i j <;> simp

lemma findingLE_iff {a b : Finding} :
    findingLE a b = true ↔
      (severityOrder a.severity < severityOrder b.severity ∨
        (severityOrder a.severity = severityOrder b.severity ∧
          (strLt a.file.data b.file.data = true ∨
            (a.file = b.file ∧ a.lineStart ≤ b.lineStart)))) := by
  unfold findingLE
  rw [Bool.not_eq_true', findingLess_false_iff]
  push_neg
  constructor
  · rintro ⟨hr, hrest⟩
    rcases Nat.lt_or_ge (severityOrder a.severity) (severityOrder b.severity) with h | h
    · exact Or.inl h
    · have heq : severityOrder a.severity = severityOrder b.severity := by omega
      refine Or.inr ⟨heq, ?_⟩
      obtain ⟨hs, hline⟩ := hrest heq.symm
      rcases strLt_trichotomy a.file.data b.file.data with ht | ht | ht
      · exact Or.inl ht
      · have hfe : a.file = b.file := String.ext ht
        refine Or.inr ⟨hfe, ?_⟩
        have := hline hfe.symm
        omega
      · rw [ht] at hs; exact absurd rfl hs
  · rintro (h | ⟨heq, hrest⟩)
    · refine ⟨by omega, fun he => absurd he.symm (by omega)⟩
    · refine ⟨by omega, fun _ => ?_⟩
      rcases hrest with hs | ⟨hfe, hl⟩
      · refine ⟨by simp [strLt_asymm hs], fun hfe => ?_⟩
        rw [hfe] at hs
        simp [strLt_irrefl] at hs
      · refine ⟨?_, fun _ => by omega⟩
        rw [hfe]
        simp [strLt_irrefl]

lemma findingLE_trans (a b c : Finding) (hab : findingLE a b = true)
    (hbc : findingLE b c = true) : findingLE a c = true := by
  rw [findingLE_iff] at hab hbc ⊢
  rcases hab with h1 | ⟨e1, r1⟩
  · rcases hbc with h2 | ⟨e2, r2⟩
    · exact Or.inl (by omega)
    · exact Or.inl (by omega)
  · rcases hbc with h2 | ⟨e2, r2⟩
    · exact Or.inl (by omega)
    · refine Or.inr ⟨by omega, ?_⟩
      rcases r1 with s1 | ⟨f1, l1⟩
      · rcases r2 with s2 | ⟨f2, l2⟩
        · exact Or.inl (strLt_trans s1 s2)
        · rw [← f2]; exact Or.inl s1
      · rcases r2 with s2 | ⟨f2, l2⟩
        · rw [f1]; exact Or.inl s2
        · exact Or.inr ⟨f1.trans f2, by omega⟩

lemma findingLE_total (a b : Finding) : (findingLE a b || findingLE b a) = true := by
  rcases hab : findingLE a b
  · rcases hba : findingLE b a
    · exfalso
      rw [Bool.eq_false_iff] at hab hba
      apply hab
      rw [findingLE_iff]
      rcases Nat.lt_trichotomy (severityOrder a.severity) (severityOrder b.severity)
        with h | h | h
      · exact Or.inl h
      · refine Or.inr ⟨h, ?_⟩
        rcases strLt_trichotomy a.file.data b.file.data with ht | ht | ht
        · exact Or.inl ht
        · have hfe : a.file = b.file := String.ext ht
          refine Or.inr ⟨hfe, ?_⟩
          by_contra hl
          apply hba
          rw [findingLE_iff]
          exact Or.inr ⟨h.symm, Or.inr ⟨hfe.symm, by omega⟩⟩
        · exfalso
          apply hba
          rw [findingLE_iff]
          exact Or.inr ⟨h.symm, Or.inl ht⟩
      · exfalso
        apply hba
        rw [findingLE_iff]
        exact Or.inl h
    · simp
  · simp

/-- Claim C5: `Sort` orders the kept findings by severity rank ascending
(critical < high < medium < low), then file ascending (bytewise lexicographic),
then `lineStart` ascending; the sorted list is a permutation of the kept
findings; and sorting twice in a row gives the same output as sorting once. -/
theorem sort_ordered_idempotent (fa : FindingsAggregator) :
    fa.Sort.findings.Pairwise (fun a b =>
      severityOrder a.severity < severityOrder b.severity ∨
        (severityOrder a.severity = severityOrder b.severity ∧
          (strLt a.file.data b.file.data = true ∨
            (a.file = b.file ∧ a.lineStart ≤ b.lineStart)))) ∧
    fa.Sort.findings.Perm fa.findings ∧
    fa.Sort.Sort = fa.Sort := by
  have hsorted := List.sorted_mergeSort findingLE_trans findingLE_total fa.findings
  refine ⟨?_, ?_, ?_⟩
  · exact (hsorted.imp (fun h => findingLE_iff.mp h))
  · exact List.mergeSort_perm fa.findings findingLE
  · show ({ fa with findings := (fa.findings.mergeSort findingLE).mergeSort findingLE } :
      FindingsAggregator) = { fa with findings := fa.findings.mergeSort findingLE }
    rw [List.mergeSort_of_sorted hsorted]

/-! ## Report lemmas -/

lemma lookup_bumpKey_isSome {α : Type} [DecidableEq α] {m : List (α × Nat)} {k' : α}
    (h : (m.lookup k').isSome = true) (k : α) :
    ((bumpKey m k).lookup k').isSome = true := by
  induction m with
  | nil => simp [List.lookup] at h
  | cons kv rest ih =>
    obtain ⟨k0, v0⟩ := kv
    rcases hb : (k' == k0) with _ | _
    · simp only [List.lookup, hb] at h
      by_cases he : k0 = k
      · have hbk : bumpKey ((k0, v0) :: rest) k = (k0, v0 + 1) :: rest := by
          simp [bumpKey, he]
        rw [hbk]
        simp only [List.lookup, hb]
        exact h
      · have hbk : bumpKey ((k0, v0) :: rest) k = (k0, v0) :: bumpKey rest k := by
          simp [bumpKey, he]
        rw [hbk]
        simp only [List.lookup, hb]
        exact ih h
    · by_cases he : k0 = k
      · have hbk : bumpKey ((k0, v0) :: rest) k = (k0, v0 + 1) :: rest := by
          simp [bumpKey, he]
        rw [hbk]
        simp [List.lookup, hb]
      · have hbk : bumpKey ((k0, v0) :: rest) k = (k0, v0) :: bumpKey rest k := by
          simp [bumpKey, he]
        rw [hbk]
        simp [List.lookup, hb]

lemma lookup_countBySeverity_isSome (fa : FindingsAggregator) (sev : Severity) :
    ((fa.CountBySeverity).lookup sev).isSome = true := by
  unfold FindingsAggregator.CountBySeverity
  have hinit : ∀ m : List (Severity × Nat),
      ((m.lookup sev).isSome = true) → ∀ l : List Finding,
      (((l.foldl (fun counts f => bumpKey counts f.severity) m).lookup sev).isSome = true) := by
    intro m hm l
    induction l generalizing m with
    | nil => exact hm
    | cons f t ih =>
      simp only [List.foldl_cons]
      exact ih _ (lookup_bumpKey_isSome hm f.severity)
  apply hinit
  cases sev <;> decide

/-- Claim C6 counterexample: for the start/end pair (1 s, 0) — end before
start — `GenerateReport` produces a strictly negative `durationSeconds`, so
"this value is ≥ 0 for every start/end timestamp pair" fails on the code
(there is no clamping). -/
theorem report_negative_duration_cex :
    (GenerateReport {} [] [] 1000000000 0 0).summary.duration < 0 := by
  norm_num [GenerateReport]

/-- Claim C6 (amended): `durationSeconds` equals `end − start` in seconds for
every pair, it is ≥ 0 whenever `start ≤ end` (the code does not clamp a
reversed pair), and `bySeverity` always contains all four severity keys —
zero-filled when the finding set is empty. -/
theorem report_duration_and_severity_keys (ctx : ProjectContext)
    (findings : List Finding) (passes : List Pass) (s e now : Int) :
    (GenerateReport ctx findings passes s e now).summary.duration
        = ((e - s : Int) : ℚ) / 1000000000 ∧
    (s ≤ e → 0 ≤ (GenerateReport ctx findings passes s e now).summary.duration) ∧
    (∀ sev : Severity,
      (((GenerateReport ctx findings passes s e now).summary.bySeverity).lookup sev).isSome
        = true) ∧
    (findings = [] →
      (GenerateReport ctx findings passes s e now).summary.bySeverity =
        [(Severity.low, 0), (Severity.medium, 0), (Severity.high, 0), (Severity.critical, 0)]) := by
  refine ⟨rfl, ?_, ?_, ?_⟩
  · intro h
    show (0 : ℚ) ≤ ((e - s : Int) : ℚ) / 1000000000
    apply div_nonneg _ (by norm_num)
    exact_mod_cast sub_nonneg.mpr h
  · intro sev
    exact lookup_countBySeverity_isSome _ sev
  · intro h
    subst h
    simp [GenerateReport, FindingsAggregator.AddMultiple, NewFindingsAggregator,
      FindingsAggregator.Sort, List.mergeSort_nil, FindingsAggregator.CountBySeverity]

/-- Witness for C6 (amended): the spec's own example — start `T = 0`, end
`T + 5 s` — gives duration exactly 5 with all four severity keys present and
zero-filled. -/
theorem report_duration_witness :
    (GenerateReport {} [] [] 0 5000000000 0).summary.duration
        = ((5000000000 - 0 : Int) : ℚ) / 1000000000 ∧
    (0 ≤ (GenerateReport {} [] [] 0 5000000000 0).summary.duration) ∧
    (∀ sev : Severity,
      (((GenerateReport {} [] [] 0 5000000000 0).summary.bySeverity).lookup sev).isSome
        = true) ∧
    ((GenerateReport {} [] ([] : List Pass) 0 5000000000 0).summary.bySeverity =
        [(Severity.low, 0), (Severity.medium, 0), (Severity.high, 0), (Severity.critical, 0)]) := by
  obtain ⟨h1, h2, h3, h4⟩ := report_duration_and_severity_keys {} [] [] 0 5000000000 0
  exact ⟨h1, h2 (by norm_num), h3, h4 rfl⟩

/-! ## Response-parser claims -/

/-- Claim C7: `ParseFindingsFromResponse` is total and never signals an error —
its type is `String → String → List Finding`, with no error channel at all —
and parsing the literal prose `I found nothing wrong.` (no JSON anywhere)
yields the empty sequence rather than an error. -/
theorem parser_leniency (filePath : String) :
    ParseFindingsFromResponse filePath ("I found nothing wrong.") = [] := by
  have h : extractJSON ("I found nothing wrong.").data = [] := by decide
  simp [ParseFindingsFromResponse, h]

/-- Claim C8: `extractJSON` tries, in order, (a) the span of a ```json fenced
block, (b) the span from the first `[` to the last `]`; the parser returns the
empty sequence when the extraction is empty or the extracted text is not a
parseable array; and the fenced one-element example parses to exactly one
high-severity finding. -/
theorem extraction_order_and_fenced :
    (∀ t : List Char, ∀ i j : Nat,
      strIndex t ("```json").data = (i : Int) →
      strIndex (t.drop (i + 7)) ("```").data = (j : Int) →
      extractJSON t = trimSpace ((t.drop (i + 7)).take j)) ∧
    (∀ t : List Char, ∀ s e : Nat,
      strContains t ("```json").data = false →
      strIndex t ['['] = (s : Int) →
      strLastIndex t [']'] = (e : Int) →
      s < e →
      extractJSON t = trimSpace ((t.drop s).take (e + 1 - s))) ∧
    (∀ (p t : String), extractJSON t.data = [] → ParseFindingsFromResponse p t = []) ∧
    (∀ (p t : String), unmarshalRawFindings (extractJSON t.data) = .error () →
      ParseFindingsFromResponse p t = []) ∧
    ParseFindingsFromResponse ("app.go") fencedResp = [fencedFinding] := by
  refine ⟨?_, ?_, ?_, ?_, by decide⟩
  · intro t i j h1 h2
    have hc : strContains t ("```json").data = true := by
      simp [strContains, h1]
    have ht : (strIndex t ("```json").data).toNat + 7 = i + 7 := by
      rw [h1]; simp
    simp only [extractJSON, hc, if_true, ht, h2]
    have : ((j : Int) ≥ 0) = True := by simp
    simp [this]
  · intro t s e hc h1 h2 hse
    have hcb : strContains t ['['] = true := by
      simp [strContains, h1]
    simp only [extractJSON, hc, Bool.false_eq_true, if_false, hcb, if_true, h1, h2,
      Int.toNat_natCast]
    rw [if_pos]
    simp only [ge_iff_le, Bool.and_eq_true, decide_eq_true_eq, gt_iff_lt]
    refine ⟨⟨by positivity, by positivity⟩, by exact_mod_cast hse⟩
  · intro p t h
    simp [ParseFindingsFromResponse, h]
  · intro p t h
    by_cases he : (extractJSON t.data).isEmpty
    · simp [ParseFindingsFromResponse, he]
    · simp [ParseFindingsFromResponse, he, h]

/-- Witness for C8: all four general parts applied at concrete inputs — the
fenced response (fence at index 22, closing fence 76 characters later), the
bare-array response (brackets at 0 and 76), prose with no JSON, and an
extracted-but-unparseable span. -/
theorem extraction_order_witness :
    extractJSON fencedResp.data = trimSpace ((fencedResp.data.drop (22 + 7)).take 76) ∧
    extractJSON urgentResp.data = trimSpace ((urgentResp.data.drop 0).take (76 + 1 - 0)) ∧
    ParseFindingsFromResponse ("x.go") ("There is no JSON here.") = [] ∧
    ParseFindingsFromResponse ("x.go") ("[oops]") = [] ∧
    ParseFindingsFromResponse ("app.go") fencedResp = [fencedFinding] := by
  obtain ⟨h1, h2, h3, h4, h5⟩ := extraction_order_and_fenced
  exact ⟨h1 fencedResp.data 22 76 (by decide) (by decide),
    h2 urgentResp.data 0 76 (by decide) (by decide) (by decide) (by decide),
    h3 ("x.go") ("There is no JSON here.") (by decide),
    h4 ("x.go") ("[oops]") (by decide),
    h5⟩

/-- Claim C9: the severity string of a decoded element is mapped
case-insensitively onto the enum — each of low/high/critical is produced
exactly when the lowercased string matches, and any unrecognized severity
falls back to medium (the mapping never fails); parsing an element with
severity `urgent` yields a medium finding. -/
theorem severity_mapping_fallback (s : String) :
    (severityFromName s = .low ↔ toLowerChars s.data = ("low").data) ∧
    (severityFromName s = .high ↔ toLowerChars s.data = ("high").data) ∧
    (severityFromName s = .critical ↔ toLowerChars s.data = ("critical").data) ∧
    (toLowerChars s.data ≠ ("low").data → toLowerChars s.data ≠ ("medium").data →
      toLowerChars s.data ≠ ("high").data → toLowerChars s.data ≠ ("critical").data →
      severityFromName s = .medium) ∧
    ParseFindingsFromResponse ("app.go") urgentResp = [urgentFinding] := by
  refine ⟨?_, ?_, ?_, ?_, by decide⟩ <;>
    · unfold severityFromName
      split_ifs <;> simp_all

/-- Witness for C9: the unrecognized severity `URGENT` maps to medium, and the
`urgent` element parses to a medium finding. -/
theorem severity_mapping_fallback_witness :
    severityFromName ("URGENT") = .medium ∧
    ParseFindingsFromResponse ("app.go") urgentResp = [urgentFinding] := by
  obtain ⟨-, -, -, h4, h5⟩ := severity_mapping_fallback ("URGENT")
  exact ⟨h4 (by decide) (by decide) (by decide) (by decide), h5⟩

/-! ## Orchestrator lemmas -/

lemma runPassStep_decompose (prov : Provider) (fs : FileSystem) (ctx : ProjectContext)
    (p : Pass) (acc : List PipelineEvent × List Finding) (file : FileInfo) :
    runPassStep prov fs ctx p acc file =
      (acc.1 ++ (runPassStep prov fs ctx p ([], []) file).1,
       acc.2 ++ (runPassStep prov fs ctx p ([], []) file).2) := by
  unfold runPassStep
  cases hb : BuildPromptForFile fs file ctx p with
  | error e => simp [hb]
  | ok prompt =>
    cases hp : prov prompt (requestOptionsFor p) with
    | error e => simp [hb, hp]
    | ok resp => simp [hb, hp]

lemma runPassStep_events_single (prov : Provider) (fs : FileSystem) (ctx : ProjectContext)
    (p : Pass) (file : FileInfo) :
    (runPassStep prov fs ctx p ([], []) file).1 =
      [{ type := .passProgress, pass := some p, message := "Analyzing " ++ file.path }] := by
  unfold runPassStep
  cases hb : BuildPromptForFile fs file ctx p with
  | error e => simp [hb]
  | ok prompt =>
    cases hp : prov prompt (requestOptionsFor p) with
    | error e => simp [hb, hp]
    | ok resp => simp [hb, hp]

lemma foldl_runPassStep (prov : Provider) (fs : FileSystem) (ctx : ProjectContext)
    (p : Pass) :
    ∀ (l : List FileInfo) (acc : List PipelineEvent × List Finding),
      l.foldl (runPassStep prov fs ctx p) acc =
        (acc.1 ++ runPassEvents prov fs ctx p l, acc.2 ++ runPassFindings prov fs ctx p l) := by
  intro l
  induction l with
  | nil =>
    intro acc
    simp [runPassEvents, runPassFindings]
  | cons f t ih =>
    intro acc
    have hE : runPassEvents prov fs ctx p (f :: t) =
        (runPassStep prov fs ctx p ([], []) f).1 ++ runPassEvents prov fs ctx p t := by
      show (List.foldl (runPassStep prov fs ctx p)
        (runPassStep prov fs ctx p ([], []) f) t).1 = _
      rw [ih]
    have hF : runPassFindings prov fs ctx p (f :: t) =
        (runPassStep prov fs ctx p ([], []) f).2 ++ runPassFindings prov fs ctx p t := by
      show (List.foldl (runPassStep prov fs ctx p)
        (runPassStep prov fs ctx p ([], []) f) t).2 = _
      rw [ih]
    show List.foldl (runPassStep prov fs ctx p) (runPassStep prov fs ctx p acc f) t = _
    rw [ih, runPassStep_decompose prov fs ctx p acc f, hE, hF]
    simp [List.append_assoc]

lemma runPassEvents_append (prov : Provider) (fs : FileSystem) (ctx : ProjectContext)
    (p : Pass) (l1 l2 : List FileInfo) :
    runPassEvents prov fs ctx p (l1 ++ l2) =
      runPassEvents prov fs ctx p l1 ++ runPassEvents prov fs ctx p l2 := by
  unfold runPassEvents
  rw [List.foldl_append, foldl_runPassStep]
  rfl

lemma runPassFindings_append (prov : Provider) (fs : FileSystem) (ctx : ProjectContext)
    (p : Pass) (l1 l2 : List FileInfo) :
    runPassFindings prov fs ctx p (l1 ++ l2) =
      runPassFindings prov fs ctx p l1 ++ runPassFindings prov fs ctx p l2 := by
  unfold runPassFindings
  rw [List.foldl_append, foldl_runPassStep]
  rfl

lemma runPassEvents_progress (prov : Provider) (fs : FileSystem) (ctx : ProjectContext)
    (p : Pass) :
    ∀ (l : List FileInfo), ∀ ev ∈ runPassEvents prov fs ctx p l, ev.type = .passProgress := by
  intro l
  induction l with
  | nil => intro ev h; simp [runPassEvents] at h
  | cons f t ih =>
    intro ev h
    have hE : runPassEvents prov fs ctx p (f :: t) =
        (runPassStep prov fs ctx p ([], []) f).1 ++ runPassEvents prov fs ctx p t := by
      show (List.foldl (runPassStep prov fs ctx p)
        (runPassStep prov fs ctx p ([], []) f) t).1 = _
      rw [foldl_runPassStep]
    rw [hE, runPassStep_events_single] at h
    rcases List.mem_append.mp h with h1 | h2
    · rw [List.mem_singleton.mp h1]
    · exact ih ev h2

lemma runPass_single_skip (prov : Provider) (fs : FileSystem) (ctx : ProjectContext)
    (p : Pass) (f : FileInfo)
    (h : (∃ e, BuildPromptForFile fs f ctx p = .error e) ∨
         (∃ prompt e, BuildPromptForFile fs f ctx p = .ok prompt ∧
            prov prompt (requestOptionsFor p) = .error e)) :
    runPassEvents prov fs ctx p [f] =
      [{ type := .passProgress, pass := some p, message := "Analyzing " ++ f.path }] ∧
    runPassFindings prov fs ctx p [f] = [] := by
  rcases h with ⟨e, he⟩ | ⟨prompt, e, hp, he⟩
  · constructor <;> simp [runPassEvents, runPassFindings, runPassStep, he]
  · constructor <;> simp [runPassEvents, runPassFindings, runPassStep, hp, he]

lemma executePassWith_shape (analyze : Pass → List PipelineEvent × Except String (List Finding))
    (st : RunState) (p : Pass) (evs : List PipelineEvent) (fnds : List Finding)
    (ha : analyze { p with status := .running, startTime := st.clock } = (evs, .ok fnds)) :
    executePassWith analyze st p =
      ({ p with status := .completed, startTime := st.clock, endTime := st.clock + 1 },
       { findings := st.findings ++ fnds.map (fun fd => { fd with pass := p.name }),
         events := st.events
           ++ [{ type := .passStarted,
                 pass := some { p with status := .running, startTime := st.clock } }]
           ++ evs
           ++ (fnds.map (fun fd => { fd with pass := p.name })).map
                (fun fd => { type := .findingAdded, finding := some fd })
           ++ [{ type := .passCompleted,
                 pass := some { p with status := .completed, startTime := st.clock, endTime := st.clock + 1 } }],
         clock := st.clock + 2,
         pipelineEndTime := st.pipelineEndTime },
       none) := by
  simp only [executePassWith, ha]

lemma executePassWith_shape_err
    (analyze : Pass → List PipelineEvent × Except String (List Finding))
    (st : RunState) (p : Pass) (evs : List PipelineEvent) (e : String)
    (ha : analyze { p with status := .running, startTime := st.clock } = (evs, .error e)) :
    executePassWith analyze st p =
      ({ p with status := .running, startTime := st.clock },
       { findings := st.findings,
         events := st.events
           ++ [{ type := .passStarted,
                 pass := some { p with status := .running, startTime := st.clock } }]
           ++ evs,
         clock := st.clock + 1,
         pipelineEndTime := st.pipelineEndTime },
       some e) := by
  simp only [executePassWith, ha]

lemma executePassWith_none_completed
    (analyze : Pass → List PipelineEvent × Except String (List Finding))
    (st : RunState) (p : Pass)
    (h : (executePassWith analyze st p).2.2 = none) :
    (executePassWith analyze st p).1.status = .completed := by
  rcases ha : analyze { p with status := .running, startTime := st.clock } with ⟨aevs, res⟩
  cases res with
  | error e =>
    rw [executePassWith_shape_err analyze st p aevs e ha] at h
    simp at h
  | ok fnds =>
    rw [executePassWith_shape analyze st p aevs fnds ha]

lemma ExecuteWith_ok (analyze : Pass → List PipelineEvent × Except String (List Finding))
    (h : ∀ (st1 : RunState) (q : Pass), (executePassWith analyze st1 q).2.2 = none) :
    ∀ (passes : List Pass) (st : RunState),
      (ExecuteWith analyze st passes).2.2 = .ok () ∧
      ∀ q ∈ (ExecuteWith analyze st passes).1, q.status = .completed := by
  intro passes
  induction passes with
  | nil =>
    intro st
    exact ⟨rfl, by simp [ExecuteWith]⟩
  | cons p rest ih =>
    intro st
    rcases hstep : executePassWith analyze st p with ⟨p', st', r⟩
    have hr : r = none := by
      have hh := h st p
      rw [hstep] at hh
      exact hh
    subst hr
    have hqstat : p'.status = .completed := by
      have hh := executePassWith_none_completed analyze st p (by rw [hstep])
      rw [hstep] at hh
      exact hh
    constructor
    · show (ExecuteWith analyze st (p :: rest)).2.2 = .ok ()
      simp only [ExecuteWith, hstep]
      exact (ih st').1
    · intro q hq
      simp only [ExecuteWith, hstep] at hq
      simp only [List.mem_cons] at hq
      rcases hq with rfl | hq2
      · exact hqstat
      · exact (ih st').2 q hq2

lemma executePassWith_run_eq (prov : Provider) (fs : FileSystem) (ctx : ProjectContext)
    (files : List FileInfo) (st : RunState) (p : Pass) :
    executePassWith (fun p' => runPassAnalysis prov fs ctx p' files) st p =
      ({ p with status := .completed, startTime := st.clock, endTime := st.clock + 1 },
       { findings := st.findings
           ++ (runPassFindings prov fs ctx
                { p with status := .running, startTime := st.clock } files).map
              (fun fd => { fd with pass := p.name }),
         events := st.events
           ++ [{ type := .passStarted,
                 pass := some { p with status := .running, startTime := st.clock } }]
           ++ runPassEvents prov fs ctx
                { p with status := .running, startTime := st.clock } files
           ++ ((runPassFindings prov fs ctx
                 { p with status := .running, startTime := st.clock } files).map
               (fun fd => { fd with pass := p.name })).map
                (fun fd => { type := .findingAdded, finding := some fd })
           ++ [{ type := .passCompleted,
                 pass := some { p with status := .completed, startTime := st.clock, endTime := st.clock + 1 } }],
         clock := st.clock + 2,
         pipelineEndTime := st.pipelineEndTime },
       none) :=
  executePassWith_shape _ st p _ _ rfl

lemma executePass_eq (prov : Provider) (fs : FileSystem) (ctx : ProjectContext)
    (files : List FileInfo) (st : RunState) (p : Pass) :
    executePass prov fs ctx files st p =
      ({ p with status := .completed, startTime := st.clock, endTime := st.clock + 1 },
       { findings := st.findings
           ++ (runPassFindings prov fs ctx
                { p with status := .running, startTime := st.clock } files).map
              (fun fd => { fd with pass := p.name }),
         events := st.events
           ++ [{ type := .passStarted,
                 pass := some { p with status := .running, startTime := st.clock } }]
           ++ runPassEvents prov fs ctx
                { p with status := .running, startTime := st.clock } files
           ++ ((runPassFindings prov fs ctx
                 { p with status := .running, startTime := st.clock } files).map
               (fun fd => { fd with pass := p.name })).map
                (fun fd => { type := .findingAdded, finding := some fd })
           ++ [{ type := .passCompleted,
                 pass := some { p with status := .completed, startTime := st.clock, endTime := st.clock + 1 } }],
         clock := st.clock + 2,
         pipelineEndTime := st.pipelineEndTime },
       none) :=
  executePassWith_run_eq prov fs ctx files st p

lemma ExecuteWith_events_suffix
    (analyze : Pass → List PipelineEvent × Except String (List Finding))
    (hstep : ∀ (st1 : RunState) (q : Pass), ∃ mid,
      (executePassWith analyze st1 q).2.2 = none ∧
      (executePassWith analyze st1 q).2.1.events = st1.events ++ mid ∧
      ∀ ev ∈ mid, ev.type ≠ .passFailed) :
    ∀ (passes : List Pass) (st : RunState),
      ∃ new, (ExecuteWith analyze st passes).2.1.events = st.events ++ new ∧
        ∀ ev ∈ new, ev.type ≠ .passFailed := by
  intro passes
  induction passes with
  | nil =>
    intro st
    exact ⟨[], by simp [ExecuteWith], by simp⟩
  | cons p rest ih =>
    intro st
    obtain ⟨mid, hnone, hmid, hmidty⟩ := hstep st p
    rcases hq : executePassWith analyze st p with ⟨p', st', r⟩
    rw [hq] at hnone hmid
    have hr : r = none := hnone
    subst hr
    have hmid' : st'.events = st.events ++ mid := hmid
    obtain ⟨new2, hnew2, hty2⟩ := ih st'
    refine ⟨mid ++ new2, ?_, ?_⟩
    · show (ExecuteWith analyze st (p :: rest)).2.1.events = _
      simp only [ExecuteWith, hq]
      show (ExecuteWith analyze st' rest).2.1.events = _
      rw [hnew2, hmid']
      simp [List.append_assoc]
    · intro ev hev
      rcases List.mem_append.mp hev with h1 | h2
      · exact hmidty ev h1
      · exact hty2 ev h2

lemma executePass_step_events (prov : Provider) (fs : FileSystem) (ctx : ProjectContext)
    (files : List FileInfo) (st1 : RunState) (q : Pass) :
    ∃ mid,
      (executePassWith (fun p' => runPassAnalysis prov fs ctx p' files) st1 q).2.2 = none ∧
      (executePassWith (fun p' => runPassAnalysis prov fs ctx p' files) st1 q).2.1.events
        = st1.events ++ mid ∧
      ∀ ev ∈ mid, ev.type ≠ .passFailed := by
  refine ⟨[{ type := .passStarted,
             pass := some { q with status := .running, startTime := st1.clock } }]
      ++ runPassEvents prov fs ctx { q with status := .running, startTime := st1.clock } files
      ++ ((runPassFindings prov fs ctx { q with status := .running, startTime := st1.clock }
            files).map (fun fd => { fd with pass := q.name })).map
          (fun fd => { type := .findingAdded, finding := some fd })
      ++ [{ type := .passCompleted,
            pass := some { q with status := .completed, startTime := st1.clock, endTime := st1.clock + 1 } }],
    ?_, ?_, ?_⟩
  · rw [executePassWith_run_eq]
  · rw [executePassWith_run_eq]
    simp [List.append_assoc]
  · intro ev hev
    rcases List.mem_append.mp hev with h1 | h4
    · rcases List.mem_append.mp h1 with h2 | h3
      · rcases List.mem_append.mp h2 with h5 | h6
        · rw [List.mem_singleton.mp h5]
          simp
        · have := runPassEvents_progress prov fs ctx _ files ev h6
          rw [this]
          simp
      · obtain ⟨fd, _, hfd⟩ := List.mem_map.mp h3
        rw [← hfd]
        simp
    · rw [List.mem_singleton.mp h4]
      simp

/-! ## Orchestrator claims -/

set_option maxRecDepth 16384 in
/-- Claim C1 counterexample: a run whose provider answers with the same
finding object twice leaves the identical finding twice in
`pipeline.Findings` — `Execute` never routes findings through
`FindingsAggregator.Add` — whereas feeding the same two findings through the
aggregator keeps only one.  So findings collected during a run do not pass
through the aggregator's deduplication. -/
theorem findings_not_dedup_during_run_cex :
    (Execute dupProvider okFs smallCtx {} [lintPass] [fileA]).2.1.findings
        = [dupFinding, dupFinding] ∧
    (NewFindingsAggregator.AddMultiple [dupFinding, dupFinding]).findings = [dupFinding] ∧
    ([dupFinding, dupFinding] : List Finding) ≠ [dupFinding] := by
  exact ⟨by decide, by decide, by decide⟩

/-- Claim C1 (amended): during `Execute`, for every pass, each finding parsed
from the per-file responses is stamped with the pass's name and appended
directly to `pipeline.Findings` — with no aggregator deduplication during the
run — and one `FindingAdded` event is emitted per finding, in the order
produced, between the pass's `PassStarted` and `PassCompleted` events; the
`FindingsAggregator`'s deduplication is applied only at report time, inside
`GenerateReport`. -/
theorem findings_stamped_appended_in_order (prov : Provider) (fs : FileSystem)
    (ctx : ProjectContext) (files : List FileInfo) (st : RunState) (p : Pass) :
    (executePass prov fs ctx files st p).2.1.findings =
      st.findings ++ (runPassFindings prov fs ctx
          { p with status := .running, startTime := st.clock } files).map
        (fun fd => { fd with pass := p.name }) ∧
    (executePass prov fs ctx files st p).2.1.events =
      st.events
        ++ [{ type := .passStarted,
              pass := some { p with status := .running, startTime := st.clock } }]
        ++ runPassEvents prov fs ctx { p with status := .running, startTime := st.clock } files
        ++ ((runPassFindings prov fs ctx
              { p with status := .running, startTime := st.clock } files).map
            (fun fd => { fd with pass := p.name })).map
          (fun fd => { type := .findingAdded, finding := some fd })
        ++ [{ type := .passCompleted,
              pass := some { p with status := .completed, startTime := st.clock, endTime := st.clock + 1 } }] ∧
    (executePass prov fs ctx files st p).2.2 = none ∧
    (∀ (ctx2 : ProjectContext) (fnds : List Finding) (passes : List Pass) (s e now : Int),
      (GenerateReport ctx2 fnds passes s e now).findings =
        ((NewFindingsAggregator.AddMultiple fnds).Sort).findings) := by
  rw [executePass_eq]
  exact ⟨rfl, rfl, rfl, fun _ _ _ _ _ _ => rfl⟩

/-- Claim C3: for every pass run over a file list, a file whose prompt build
fails or whose provider request fails is skipped silently — it contributes
exactly its `PassProgress` event and no findings, no further event, and no
error — the remaining files' findings are all present, and the pass still
completes with `executePass` returning no error. -/
theorem per_file_resilience (prov : Provider) (fs : FileSystem) (ctx : ProjectContext)
    (p : Pass) (xs ys : List FileInfo) (f : FileInfo)
    (h : (∃ e, BuildPromptForFile fs f ctx p = .error e) ∨
         (∃ prompt e, BuildPromptForFile fs f ctx p = .ok prompt ∧
            prov prompt (requestOptionsFor p) = .error e)) :
    runPassAnalysis prov fs ctx p (xs ++ f :: ys) =
      (runPassEvents prov fs ctx p xs
        ++ [{ type := .passProgress, pass := some p, message := "Analyzing " ++ f.path }]
        ++ runPassEvents prov fs ctx p ys,
       .ok (runPassFindings prov fs ctx p xs ++ runPassFindings prov fs ctx p ys)) ∧
    ∀ st : RunState,
      (executePass prov fs ctx (xs ++ f :: ys) st p).1.status = .completed ∧
      (executePass prov fs ctx (xs ++ f :: ys) st p).2.2 = none := by
  obtain ⟨hE1, hF1⟩ := runPass_single_skip prov fs ctx p f h
  constructor
  · show (runPassEvents prov fs ctx p (xs ++ f :: ys),
      (.ok (runPassFindings prov fs ctx p (xs ++ f :: ys)) : Except String (List Finding))) = _
    have hsplit : xs ++ f :: ys = (xs ++ [f]) ++ ys := by simp
    rw [hsplit, runPassEvents_append, runPassEvents_append, runPassFindings_append,
      runPassFindings_append, hE1, hF1]
    simp [List.append_assoc]
  · intro st
    rw [executePass_eq]
    exact ⟨rfl, rfl⟩

/-- Witness for C3: with a provider that is rate-limited exactly on the prompt
for `b.go`, a pass over `[a.go, b.go, c.go]` yields the findings of `a.go` and
`c.go`, only the progress event for `b.go`, and a completed pass. -/
theorem per_file_resilience_witness :
    runPassAnalysis flakyProvider okFs smallCtx lintPass ([fileA] ++ fileB :: [fileC]) =
      (runPassEvents flakyProvider okFs smallCtx lintPass [fileA]
        ++ [{ type := .passProgress, pass := some lintPass,
              message := "Analyzing " ++ fileB.path }]
        ++ runPassEvents flakyProvider okFs smallCtx lintPass [fileC],
       .ok (runPassFindings flakyProvider okFs smallCtx lintPass [fileA]
        ++ runPassFindings flakyProvider okFs smallCtx lintPass [fileC])) ∧
    ∀ st : RunState,
      (executePass flakyProvider okFs smallCtx ([fileA] ++ fileB :: [fileC]) st lintPass).1.status
        = .completed ∧
      (executePass flakyProvider okFs smallCtx ([fileA] ++ fileB :: [fileC]) st lintPass).2.2
        = none :=
  per_file_resilience flakyProvider okFs smallCtx lintPass [fileA] [fileC] fileB
    (Or.inr ⟨_, "rate limited", rfl, by decide⟩)

/-- Claim C2: over the abstract per-pass analysis that `Execute`'s code is
written against, if every pass before `p` succeeds and `p` raises a pass-fatal
error `e`, then `Execute` marks `p` failed with the error string and a
recorded end time, emits `PassFailed` as the final event, returns the error to
its caller, leaves every earlier pass `completed` and every later pass
untouched in `pending`; and (only case) when no pass fails `Execute` never
stops early.  (In the shipped code `runPassAnalysis` never returns an error —
claim C10 — so the failure branch is exercised here through the abstracted
analysis parameter.) -/
theorem pass_fatal_abort :
    (∀ (analyze : Pass → List PipelineEvent × Except String (List Finding))
       (st : RunState) (ps : List Pass) (p : Pass) (qs : List Pass) (e : String),
      (∀ q ∈ ps, ∀ st1 : RunState, (executePassWith analyze st1 q).2.2 = none) →
      (∀ st1 : RunState, (executePassWith analyze st1 p).2.2 = some e) →
      (∀ q ∈ qs, q.status = .pending) →
      ∃ cs pf st2,
        ExecuteWith analyze st (ps ++ p :: qs) =
          (cs ++ pf :: qs, st2, .error ("pass " ++ p.name ++ " failed: " ++ e)) ∧
        cs.length = ps.length ∧
        (∀ c ∈ cs, c.status = .completed) ∧
        pf.name = p.name ∧ pf.status = .failed ∧ pf.error = e ∧ pf.endTime ≠ 0 ∧
        (∀ q ∈ qs, q.status = .pending) ∧
        ∃ evs, st2.events = evs ++
          [{ type := .passFailed, pass := some pf, error := some e }]) ∧
    (∀ (analyze : Pass → List PipelineEvent × Except String (List Finding))
       (st : RunState) (passes : List Pass),
      (∀ (st1 : RunState) (q : Pass), (executePassWith analyze st1 q).2.2 = none) →
      (ExecuteWith analyze st passes).2.2 = .ok ()) := by
  constructor
  · intro analyze st ps p qs e hok hfail hpend
    induction ps generalizing st with
    | nil =>
      rcases ha : analyze { p with status := .running, startTime := st.clock } with ⟨aevs, res⟩
      cases res with
      | ok fnds =>
        exfalso
        have h1 := hfail st
        rw [executePassWith_shape analyze st p aevs fnds ha] at h1
        simp at h1
      | error e' =>
        have hsh := executePassWith_shape_err analyze st p aevs e' ha
        have h1 := hfail st
        rw [hsh] at h1
        have he : e' = e := by simpa using h1
        subst he
        refine ⟨[],
          { p with status := .failed, startTime := st.clock, error := e', endTime := st.clock + 1 },
          { findings := st.findings,
            events := st.events
              ++ [{ type := .passStarted, pass := some { p with status := .running, startTime := st.clock } }]
              ++ aevs
              ++ [{ type := .passFailed, pass := some { p with status := .failed, startTime := st.clock, error := e', endTime := st.clock + 1 }, error := some e' }],
            clock := st.clock + 2,
            pipelineEndTime := st.pipelineEndTime },
          ?_, rfl, by simp, rfl, rfl, rfl, Nat.succ_ne_zero st.clock, hpend, ?_⟩
        · show ExecuteWith analyze st (p :: qs) = _
          simp only [ExecuteWith, hsh]
          rfl
        · exact ⟨_, rfl⟩
    | cons q ps' ih =>
      have hq := hok q (by simp) st
      rcases hstep : executePassWith analyze st q with ⟨q', st', r⟩
      rw [hstep] at hq
      have hr : r = none := hq
      subst hr
      have hqstat : q'.status = .completed := by
        have hh := executePassWith_none_completed analyze st q (by rw [hstep])
        rw [hstep] at hh
        exact hh
      obtain ⟨cs, pf, st2, hrec, hlen, hcs, hname, hstat, herr, hend, hpend2, hev⟩ :=
        ih st' (fun x hx => hok x (List.mem_cons_of_mem q hx))
      refine ⟨q' :: cs, pf, st2, ?_, by simpa using hlen, ?_, hname, hstat, herr, hend,
        hpend2, hev⟩
      · show ExecuteWith analyze st ((q :: ps') ++ p :: qs) = _
        show ExecuteWith analyze st (q :: (ps' ++ p :: qs)) = _
        simp only [ExecuteWith, hstep]
        rw [hrec]
        rfl
      · intro c hc
        rcases List.mem_cons.mp hc with rfl | hc2
        · exact hqstat
        · exact hcs c hc2
  · intro analyze st passes h
    exact (ExecuteWith_ok analyze h passes st).1

/-- Witness for C2: the 3-pass pipeline `one, two, three` (all pending) under
an analysis that is pass-fatal exactly on `two`: `Execute` returns the error,
pass one completes, pass two fails with the error recorded, pass three stays
pending, and the run ends with a `PassFailed` event. -/
theorem pass_fatal_abort_witness :
    ∃ cs pf st2,
      ExecuteWith fatalOnTwo ({} : RunState) ([passOne] ++ passTwo :: [passThree]) =
        (cs ++ pf :: [passThree], st2,
          .error ("pass " ++ passTwo.name ++ " failed: " ++ "boom")) ∧
      cs.length = [passOne].length ∧
      (∀ c ∈ cs, c.status = .completed) ∧
      pf.name = passTwo.name ∧ pf.status = .failed ∧ pf.error = "boom" ∧ pf.endTime ≠ 0 ∧
      (∀ q ∈ [passThree], q.status = .pending) ∧
      ∃ evs, st2.events = evs ++
        [{ type := .passFailed, pass := some pf, error := some "boom" }] := by
  apply pass_fatal_abort.1 fatalOnTwo {} [passOne] passTwo [passThree] "boom"
  · intro q hq st1
    rw [List.mem_singleton.mp hq,
      executePassWith_shape fatalOnTwo st1 passOne [] [] rfl]
  · intro st1
    rw [executePassWith_shape_err fatalOnTwo st1 passTwo [] ("boom") rfl]
  · intro q hq
    rw [List.mem_singleton.mp hq]
    rfl

/-- Claim C10: `runPassAnalysis` returns a nil error on every path — for every
provider, file system, context, pass and file list — so the pass-failed branch
of `Execute` is unreachable: every `Execute` run (absent panics) returns nil,
marks every pass completed, and never emits a `PassFailed` event. -/
theorem pass_failed_branch_unreachable (prov : Provider) (fs : FileSystem)
    (ctx : ProjectContext) (st : RunState) (passes : List Pass) (files : List FileInfo) :
    (∀ p : Pass, (runPassAnalysis prov fs ctx p files).2
        = .ok (runPassFindings prov fs ctx p files)) ∧
    (Execute prov fs ctx st passes files).2.2 = .ok () ∧
    (∀ q ∈ (Execute prov fs ctx st passes files).1, q.status = .completed) ∧
    (∃ new, (Execute prov fs ctx st passes files).2.1.events = st.events ++ new ∧
      ∀ ev ∈ new, ev.type ≠ .passFailed) := by
  have hsteps : ∀ (st1 : RunState) (q : Pass),
      (executePassWith (fun p' => runPassAnalysis prov fs ctx p' files) st1 q).2.2 = none := by
    intro st1 q
    rw [executePassWith_run_eq]
  refine ⟨fun p => rfl, ?_, ?_, ?_⟩
  · exact (ExecuteWith_ok _ hsteps passes st).1
  · exact (ExecuteWith_ok _ hsteps passes st).2
  · exact ExecuteWith_events_suffix _ (executePass_step_events prov fs ctx files) passes st

end Churn
